import Mathlib

/-!
Verification of the public-suffix classification service.

The repository's `src/main.go` contains the HTTP boundary
(`publicSuffixHttpResponse`, `publicSuffixHttpHandler`); the suffix
classification core itself is delegated to an external library and is
therefore modelled here from the specification (sections 3 and 4): rule
table, rule kinds (plain, wildcard, exception), longest-match selection,
the implicit default rule, and input normalization/validation.
-/

/-- Modelled from the spec: kind of a PSL rule (spec section 3) — plain
literal suffix, wildcard (`*.` prefix), or exception (`!` prefix). -/
inductive RuleKind where
  | Plain : RuleKind
  | Wildcard : RuleKind
  | Exception : RuleKind
deriving DecidableEq, BEq

/-- Modelled from the spec: the PSL section a rule was parsed from. -/
inductive RuleOrigin where
  | ICANN : RuleOrigin
  | PrivateEntity : RuleOrigin
deriving DecidableEq, BEq

/-- Modelled from the spec: origin reported in a classification result;
`None` is the first-class "no match / implicit default rule" outcome. -/
inductive Origin where
  | ICANN : Origin
  | PrivateEntity : Origin
  | None : Origin
deriving DecidableEq, BEq

/-- Modelled from the spec: one PSL rule. `labels` is stored label-reversed
(top-level label first), matching the spec's label-reversed rule set; the
wildcard star and the exception bang are not stored, only the kind. -/
structure Rule where
  labels : List String
  kind : RuleKind
  origin : RuleOrigin
deriving DecidableEq, BEq

/-- Modelled from the spec: the classification result
`{domain, matchedSuffix, origin}`; `domain` is the normalized
(lowercased, trailing-dot-stripped) domain. -/
structure ClassificationResult where
  domain : String
  matchedSuffix : String
  origin : Origin
deriving DecidableEq, BEq

/-- Modelled from the spec: the only error kind `classify` produces. -/
inductive ClassifyError where
  | InvalidDomainError : ClassifyError
deriving DecidableEq, BEq

deriving instance DecidableEq for Except

/-- Drop one trailing dot character, if present (spec: "strip a single
trailing dot if present"). -/
def stripDot (cs : List Char) : List Char :=
  if cs.getLast? = some '.' then cs.dropLast else cs

/-- ASCII lowercasing of a whole string, character by character. -/
def toLowerStr (s : String) : String :=
  String.mk (s.data.map Char.toLower)

/-- ASCII uppercasing of a whole string, character by character. -/
def toUpperStr (s : String) : String :=
  String.mk (s.data.map Char.toUpper)

/-- The lowercased, trailing-dot-stripped character sequence of the input. -/
def normalizeChars (s : String) : List Char :=
  stripDot (s.data.map Char.toLower)

/-- Split a character sequence on `.` (semantics of splitting a string on a
single-character separator: `""` gives one empty part, `"."` two). -/
def splitLabels : List Char → List (List Char)
  | [] => [[]]
  | c :: rest =>
    let r := splitLabels rest
    if c = '.' then [] :: r
    else
      match r with
      | [] => [[c]]
      | l :: ls => (c :: l) :: ls

/-- Modelled from the spec: preprocessing of `classify` — lowercase, strip a
single trailing dot, split on `.`; `none` when the input is empty after
stripping or contains an empty label. Labels are in textual order
(rightmost = top-level label). -/
def parseDomain (s : String) : Option (List String) :=
  if (normalizeChars s).isEmpty then none
  else if ((splitLabels (normalizeChars s)).map
      (fun l => String.mk l)).contains "" then none
  else some ((splitLabels (normalizeChars s)).map (fun l => String.mk l))

/-- The top-level (rightmost) label of a label sequence in textual order. -/
def topLabelOf (labels : List String) : String :=
  labels.reverse.headD ""

/-- The top-level label of a stored (label-reversed) rule pattern. -/
def ruleTopLabel (r : Rule) : String :=
  r.labels.headD ""

/-- Modelled from the spec: the rule-table lookup primitive
`rulesForTopLabel` — the rules whose rightmost pattern label equals the
given top-level label; empty, never an error, for an unknown label. -/
def rulesForTopLabel (table : List Rule) (lbl : String) : List Rule :=
  table.filter (fun r => ruleTopLabel r == lbl)

/-- Does the first list (a stored rule pattern, top-level label first) match
the leading part of the second (the domain's labels, top-level first)? -/
def labelsMatch : List String → List String → Bool
  | [], _ => true
  | _ :: _, [] => false
  | a :: as, b :: bs => a == b && labelsMatch as bs

/-- Modelled from the spec: whether a rule matches the (label-reversed)
domain, and with how many labels of the domain its effective suffix is
formed: a plain rule consumes its pattern's labels; a wildcard additionally
consumes exactly one extra label, which must exist; an exception matches
like a plain rule but its effective suffix drops the leading exempted
label. -/
def ruleMatchCount (r : Rule) (rev : List String) : Option Nat :=
  match r.kind with
  | RuleKind.Plain =>
      if labelsMatch r.labels rev then some r.labels.length else none
  | RuleKind.Wildcard =>
      if labelsMatch r.labels rev && r.labels.length < rev.length then
        some (r.labels.length + 1)
      else none
  | RuleKind.Exception =>
      if labelsMatch r.labels rev then some (r.labels.length - 1) else none

/-- All candidate rules matching the (label-reversed) domain, paired with
their effective matched label counts. -/
def matchesOf (table : List Rule) (rev : List String) : List (Rule × Nat) :=
  (rulesForTopLabel table (rev.headD "")).filterMap
    (fun r => (ruleMatchCount r rev).map (fun n => (r, n)))

/-- Pick an entry of maximal effective label count (longest match wins). -/
def pickMax : List (Rule × Nat) → Option (Rule × Nat)
  | [] => none
  | x :: xs =>
    match pickMax xs with
    | none => some x
    | some y => if x.2 < y.2 then some y else some x

/-- Modelled from the spec: the prevailing rule for a (label-reversed)
domain — a matching exception, if any, always wins; otherwise the matching
rule with the maximal effective label count. -/
def bestMatch (table : List Rule) (rev : List String) : Option (Rule × Nat) :=
  let ms := matchesOf table rev
  match pickMax (ms.filter (fun p => p.1.kind == RuleKind.Exception)) with
  | some p => some p
  | none => pickMax ms

/-- Reported origin of an explicit rule. -/
def originOf : RuleOrigin → Origin
  | RuleOrigin.ICANN => Origin.ICANN
  | RuleOrigin.PrivateEntity => Origin.PrivateEntity

/-- Modelled from the spec: classification of an already validated label
sequence — produce the dot-joined matched suffix of the prevailing rule
with that rule's origin; with no matching rule the implicit default rule
`"*"` applies: the top-level label alone, origin `None`. -/
def classifyLabels (table : List Rule) (labels : List String) :
    ClassificationResult :=
  let rev := labels.reverse
  match bestMatch table rev with
  | some (r, n) =>
      { domain := String.intercalate "." labels
      , matchedSuffix := String.intercalate "." ((rev.take n).reverse)
      , origin := originOf r.origin }
  | none =>
      { domain := String.intercalate "." labels
      , matchedSuffix := topLabelOf labels
      , origin := Origin.None }

/-- Modelled from the spec: `classify(domain)` — normalize and validate the
input, then run the matching algorithm on its label sequence. -/
def classify (table : List Rule) (s : String) :
    Except ClassifyError ClassificationResult :=
  match parseDomain s with
  | none => Except.error ClassifyError.InvalidDomainError
  | some labels => Except.ok (classifyLabels table labels)

-- Concrete rule tables used by the spec's own examples.

/-- The plain ICANN rule `uk`. -/
def ukRule : Rule := ⟨["uk"], RuleKind.Plain, RuleOrigin.ICANN⟩

/-- The plain ICANN rule `co.uk` (stored label-reversed). -/
def coUkRule : Rule := ⟨["uk", "co"], RuleKind.Plain, RuleOrigin.ICANN⟩

/-- Table holding the rules `uk` and `co.uk`. -/
def ukTable : List Rule := [ukRule, coUkRule]

/-- The wildcard ICANN rule `*.ck` (the pattern after `*.` is stored). -/
def ckWildcardRule : Rule := ⟨["ck"], RuleKind.Wildcard, RuleOrigin.ICANN⟩

/-- The exception ICANN rule `!www.ck` (the pattern after `!` is stored,
label-reversed). -/
def ckExceptionRule : Rule := ⟨["ck", "www"], RuleKind.Exception, RuleOrigin.ICANN⟩

/-- Table holding the rules `*.ck` and `!www.ck`. -/
def ckTable : List Rule := [ckWildcardRule, ckExceptionRule]

/-!
The HTTP boundary, embedded from `src/main.go`. The external
`publicsuffix.PublicSuffix` dependency is a parameter `ps` returning the
pair (public suffix, icann-managed flag).
-/

/-- The JSON success payload of `/publicsuffix`
(`PublicSuffixHttpResponse` in `src/main.go`): exactly the fields
`domain`, `publicSuffix`, `isManagedBy`. -/
structure PublicSuffixHttpResponse where
  domain : String
  publicSuffix : String
  isManagedBy : String
deriving DecidableEq, BEq

/-- `strings.IndexByte(s, '.') >= 0` from `src/main.go`: does the string
contain a dot? -/
def hasDotByte (s : String) : Bool :=
  s.data.contains '.'

/-- The inner `publicSuffixHttpResponse` closure of `src/main.go`: query
the library for (publicSuffix, isIcannManaged), derive `isManagedBy` from
the flag and the dot-presence heuristic, and echo the raw domain. -/
def publicSuffixHttpResponse (ps : String → String × Bool)
    (domain : String) : PublicSuffixHttpResponse :=
  let publicSuffix := (ps domain).1
  let isIcannManaged := (ps domain).2
  let isManagedBy :=
    if isIcannManaged then "ICANN"
    else if hasDotByte publicSuffix then "PRIVATE_ENTITY"
    else "NONE"
  { domain := domain, publicSuffix := publicSuffix, isManagedBy := isManagedBy }

/-- A JSON body written by the handler: either the error object
`{errorCode, errorType, errorMessage}` or a success payload. -/
inductive HandlerBody where
  | errorBody (errorCode : Nat) (errorType : String) (errorMessage : String) :
      HandlerBody
  | successBody (response : PublicSuffixHttpResponse) : HandlerBody
deriving DecidableEq, BEq

/-- An HTTP status code paired with the JSON body written. -/
structure HandlerResult where
  status : Nat
  body : HandlerBody
deriving DecidableEq, BEq

/-- The error message literal of `src/main.go`. -/
def badRequestMessage : String :=
  "Malformed URL query parameter \x60domain\x60"

/-- `publicSuffixHttpHandler` from `src/main.go`: read the `domain` query
parameter (Go's `Query().Get` yields `""` for a missing parameter), answer
400 with the error body when it is empty, else 200 with the classification
payload. -/
def publicSuffixHttpHandler (ps : String → String × Bool)
    (queryDomain : Option String) : HandlerResult :=
  let domain := queryDomain.getD ""
  if domain = "" then
    { status := 400
    , body := HandlerBody.errorBody 400 "Bad Request" badRequestMessage }
  else
    { status := 200
    , body := HandlerBody.successBody (publicSuffixHttpResponse ps domain) }

/-- Modelled from the spec: the glue between the classification core and
the library interface the handler consumes — the matched suffix together
with whether the prevailing rule is ICANN-managed. The library call never
fails, so the error branch (unused on valid domains) echoes the domain
unmanaged. -/
def publicSuffixOf (table : List Rule) (domain : String) : String × Bool :=
  match classify table domain with
  | Except.ok res => (res.matchedSuffix, res.origin == Origin.ICANN)
  | Except.error _ => (domain, false)

/-! Helper lemmas about the selection fold and the classifier plumbing. -/

theorem pickMax_ne_none (x : Rule × Nat) (xs : List (Rule × Nat)) :
    pickMax (x :: xs) ≠ none := by
  simp only [pickMax]
  split
  · simp
  · split <;> simp

theorem pickMax_le (l : List (Rule × Nat)) :
    ∀ p, pickMax l = some p → ∀ q ∈ l, q.2 ≤ p.2 := by
  induction l with
  | nil => intro p hp; simp [pickMax] at hp
  | cons x xs ih =>
    intro p hp q hq
    simp only [pickMax] at hp
    cases hx : pickMax xs with
    | none =>
      rw [hx] at hp
      injection hp with hp'
      subst hp'
      rcases List.mem_cons.mp hq with h | h
      · subst h; exact Nat.le_refl _
      · cases xs with
        | nil => cases h
        | cons z zs => exact absurd hx (pickMax_ne_none z zs)
    | some y =>
      rw [hx] at hp
      have hp2 : (if x.2 < y.2 then some y else some x) = some p := hp
      by_cases hlt : x.2 < y.2
      · rw [if_pos hlt] at hp2
        injection hp2 with hp'
        subst hp'
        rcases List.mem_cons.mp hq with h | h
        · subst h; exact Nat.le_of_lt hlt
        · exact ih y hx q h
      · rw [if_neg hlt] at hp2
        injection hp2 with hp'
        subst hp'
        rcases List.mem_cons.mp hq with h | h
        · subst h; exact Nat.le_refl _
        · exact Nat.le_trans (ih y hx q h) (Nat.le_of_not_lt hlt)

theorem bestMatch_of_no_exception (table : List Rule) (rev : List String)
    (hexc : (matchesOf table rev).filter
        (fun p => p.1.kind == RuleKind.Exception) = []) :
    bestMatch table rev = pickMax (matchesOf table rev) := by
  simp only [bestMatch, hexc]
  rfl

theorem bestMatch_eq_none (table : List Rule) (rev : List String)
    (hm : matchesOf table rev = []) :
    bestMatch table rev = none := by
  simp only [bestMatch, hm]
  rfl

theorem classify_parse_ok (table : List Rule) (s : String)
    (labels : List String) (hp : parseDomain s = some labels) :
    classify table s = Except.ok (classifyLabels table labels) := by
  unfold classify
  rw [hp]

theorem classifyLabels_of_bestMatch (table : List Rule) (labels : List String)
    (r : Rule) (n : Nat) (hb : bestMatch table labels.reverse = some (r, n)) :
    classifyLabels table labels =
      { domain := String.intercalate "." labels
      , matchedSuffix := String.intercalate "." ((labels.reverse.take n).reverse)
      , origin := originOf r.origin } := by
  simp only [classifyLabels, hb]

theorem classifyLabels_of_no_match (table : List Rule) (labels : List String)
    (hb : bestMatch table labels.reverse = none) :
    classifyLabels table labels =
      { domain := String.intercalate "." labels
      , matchedSuffix := topLabelOf labels
      , origin := Origin.None } := by
  simp only [classifyLabels, hb]

theorem matchesOf_empty_of_unknown (table : List Rule) (labels : List String)
    (hu : ∀ r ∈ table, ruleTopLabel r ≠ topLabelOf labels) :
    matchesOf table labels.reverse = [] := by
  unfold matchesOf rulesForTopLabel
  have h : table.filter
      (fun r => ruleTopLabel r == labels.reverse.headD "") = [] := by
    rw [List.filter_eq_nil_iff]
    intro r hr
    simp only [beq_iff_eq]
    exact hu r hr
  rw [h]
  rfl

theorem classify_error_iff (table : List Rule) (s : String) :
    classify table s = Except.error ClassifyError.InvalidDomainError ↔
      parseDomain s = none := by
  unfold classify
  cases hp : parseDomain s with
  | none => simp
  | some labels => simp

theorem toNat_char_ofNat {n : Nat} (h : n.isValidChar) :
    (Char.ofNat n).toNat = n := by
  rw [Char.ofNat, dif_pos h]
  rfl

theorem toLower_toUpper_comm (c : Char) : c.toUpper.toLower = c.toLower := by
  by_cases h : c.toNat ≥ 97 ∧ c.toNat ≤ 122
  · have h1 : c.toUpper = Char.ofNat (c.toNat - 32) := by
      simp only [Char.toUpper]
      rw [if_pos h]
    have h2 : (Char.ofNat (c.toNat - 32)).toNat = c.toNat - 32 :=
      toNat_char_ofNat (Or.inl (by omega))
    have h3 : c.toUpper.toNat ≥ 65 ∧ c.toUpper.toNat ≤ 90 := by
      rw [h1, h2]; omega
    have h4 : c.toUpper.toLower = Char.ofNat (c.toUpper.toNat + 32) := by
      simp only [Char.toLower]
      rw [if_pos h3]
    have h5 : ¬(c.toNat ≥ 65 ∧ c.toNat ≤ 90) := by omega
    have h6 : c.toLower = c := by
      simp only [Char.toLower]
      rw [if_neg h5]
    rw [h4, h6, h1, h2]
    have h7 : c.toNat - 32 + 32 = c.toNat := by omega
    rw [h7, Char.ofNat_toNat]
  · have h1 : c.toUpper = c := by
      simp only [Char.toUpper]
      rw [if_neg h]
    rw [h1]

theorem toLower_eq_dot {c : Char} (h : c.toLower = '.') : c = '.' := by
  by_cases hc : c.toNat ≥ 65 ∧ c.toNat ≤ 90
  · exfalso
    have h1 : c.toLower = Char.ofNat (c.toNat + 32) := by
      simp only [Char.toLower]
      rw [if_pos hc]
    have h2 : (Char.ofNat (c.toNat + 32)).toNat = c.toNat + 32 :=
      toNat_char_ofNat (Or.inl (by omega))
    have h3 : c.toLower.toNat = c.toNat + 32 := by rw [h1, h2]
    rw [h] at h3
    rw [show ('.' : Char).toNat = 46 from rfl] at h3
    omega
  · have h1 : c.toLower = c := by
      simp only [Char.toLower]
      rw [if_neg hc]
    rw [← h1]
    exact h

theorem stripDot_concat_dot (xs : List Char) : stripDot (xs ++ ['.']) = xs := by
  unfold stripDot
  rw [List.getLast?_concat, if_pos rfl, List.dropLast_concat]

theorem stripDot_no_dot (xs : List Char) (h : xs.getLast? ≠ some '.') :
    stripDot xs = xs := by
  unfold stripDot
  rw [if_neg h]

theorem getLast?_map_toLower_ne_dot (l : List Char)
    (h : l.getLast? ≠ some '.') :
    (l.map Char.toLower).getLast? ≠ some '.' := by
  rw [List.getLast?_map]
  intro hc
  cases hl : l.getLast? with
  | none => rw [hl] at hc; simp at hc
  | some c =>
    rw [hl] at hc
    simp only [Option.map_some'] at hc
    injection hc with hc'
    exact h (by rw [hl, toLower_eq_dot hc'])

theorem normalizeChars_upper_dot (s : String)
    (h : s.data.getLast? ≠ some '.') :
    normalizeChars (toUpperStr s ++ ".") = normalizeChars s := by
  unfold normalizeChars toUpperStr
  rw [String.data_append]
  rw [show (String.mk (s.data.map Char.toUpper)).data
        = s.data.map Char.toUpper from rfl]
  rw [show ("." : String).data = ['.'] from rfl]
  rw [List.map_append]
  rw [show List.map Char.toLower ['.'] = ['.'] from rfl]
  rw [List.map_map]
  rw [show List.map (Char.toLower ∘ Char.toUpper) s.data
        = List.map Char.toLower s.data from
      List.map_congr_left (fun c _ => toLower_toUpper_comm c)]
  rw [stripDot_concat_dot]
  rw [stripDot_no_dot _ (getLast?_map_toLower_ne_dot s.data h)]

theorem parseDomain_congr {s₁ s₂ : String}
    (h : normalizeChars s₁ = normalizeChars s₂) :
    parseDomain s₁ = parseDomain s₂ := by
  unfold parseDomain
  rw [h]

theorem classify_congr (table : List Rule) {s₁ s₂ : String}
    (h : normalizeChars s₁ = normalizeChars s₂) :
    classify table s₁ = classify table s₂ := by
  unfold classify
  rw [parseDomain_congr h]

theorem parseDomain_eq_none_iff (s : String) :
    parseDomain s = none ↔
      (normalizeChars s = [] ∨
       ((splitLabels (normalizeChars s)).map
           (fun l => String.mk l)).contains "" = true) := by
  unfold parseDomain
  split_ifs with h1 h2
  · simp only [true_iff]
    exact Or.inl (List.isEmpty_iff.mp h1)
  · simp only [true_iff]
    exact Or.inr h2
  · simp only [reduceCtorEq, false_iff]
    intro h
    rcases h with h | h
    · exact h1 (List.isEmpty_iff.mpr h)
    · exact h2 h

/-! The claims. -/

/-- C1: longest-match selection — with no matching exception rule, the
prevailing rule chosen by `classify` has the maximal effective label count
among all matching rules, and the result is that rule's dot-joined trailing
labels with its origin. (Witnessed at the spec's example: with plain ICANN
rules `uk` and `co.uk` both present, `classify "example.co.uk"` yields
matched suffix `co.uk`, not `uk`.) -/
theorem classify_longest_match (table : List Rule) (s : String)
    (labels : List String) (r : Rule) (n : Nat)
    (hp : parseDomain s = some labels)
    (hexc : (matchesOf table labels.reverse).filter
        (fun p => p.1.kind == RuleKind.Exception) = [])
    (hb : bestMatch table labels.reverse = some (r, n)) :
    (∀ q ∈ matchesOf table labels.reverse, q.2 ≤ n) ∧
    classify table s = Except.ok
      { domain := String.intercalate "." labels
      , matchedSuffix :=
          String.intercalate "." ((labels.reverse.take n).reverse)
      , origin := originOf r.origin } := by
  constructor
  · intro q hq
    have h1 := bestMatch_of_no_exception table labels.reverse hexc
    rw [h1] at hb
    exact pickMax_le _ _ hb q hq
  · rw [classify_parse_ok table s labels hp,
        classifyLabels_of_bestMatch table labels r n hb]

/-- C1 witness: the spec's `uk` / `co.uk` example, hypotheses discharged at
the concrete input. -/
theorem classify_longest_match_witness :
    (parseDomain "example.co.uk" = some ["example", "co", "uk"] ∧
     (matchesOf ukTable ["example", "co", "uk"].reverse).filter
        (fun p => p.1.kind == RuleKind.Exception) = [] ∧
     bestMatch ukTable ["example", "co", "uk"].reverse = some (coUkRule, 2)) ∧
    ((∀ q ∈ matchesOf ukTable ["example", "co", "uk"].reverse, q.2 ≤ 2) ∧
     classify ukTable "example.co.uk" =
       Except.ok ⟨"example.co.uk", "co.uk", Origin.ICANN⟩) := by
  refine ⟨⟨by decide, by decide, by decide⟩, ?_⟩
  have h := classify_longest_match ukTable "example.co.uk"
    ["example", "co", "uk"] coUkRule 2 (by decide) (by decide) (by decide)
  exact ⟨h.1, h.2⟩

/-- C2: wildcard and exception semantics — with wildcard `*.ck` and
exception `!www.ck` (both ICANN) in the table, `classify "www.ck"` yields
matched suffix `ck`, origin ICANN (the exception wins and drops the
exempted leading label); `classify "foo.ck"` yields `foo.ck`, origin ICANN
(the wildcard consumes exactly one extra label); and a domain equal to the
wildcard's literal pattern alone does not satisfy the wildcard rule. -/
theorem classify_wildcard_exception :
    classify ckTable "www.ck" =
      Except.ok ⟨"www.ck", "ck", Origin.ICANN⟩ ∧
    classify ckTable "foo.ck" =
      Except.ok ⟨"foo.ck", "foo.ck", Origin.ICANN⟩ ∧
    ruleMatchCount ckWildcardRule ["ck"] = none := by
  decide

/-- C3: implicit default rule — for every valid domain whose top-level
(rightmost) label belongs to no rule of the table, `classify` returns
origin `None` and the top-level label alone as the matched suffix. -/
theorem classify_unknown_tld (table : List Rule) (s : String)
    (labels : List String)
    (hp : parseDomain s = some labels)
    (hu : ∀ r ∈ table, ruleTopLabel r ≠ topLabelOf labels) :
    classify table s = Except.ok
      { domain := String.intercalate "." labels
      , matchedSuffix := topLabelOf labels
      , origin := Origin.None } := by
  rw [classify_parse_ok table s labels hp,
      classifyLabels_of_no_match table labels
        (bestMatch_eq_none table labels.reverse
          (matchesOf_empty_of_unknown table labels hu))]

/-- C3 witness: `example.dev` against the `uk` / `co.uk` table. -/
theorem classify_unknown_tld_witness :
    (parseDomain "example.dev" = some ["example", "dev"] ∧
     (∀ r ∈ ukTable, ruleTopLabel r ≠ topLabelOf ["example", "dev"])) ∧
    classify ukTable "example.dev" =
      Except.ok ⟨"example.dev", "dev", Origin.None⟩ := by
  refine ⟨⟨by decide, by intro r hr; fin_cases hr <;> decide⟩, ?_⟩
  exact classify_unknown_tld ukTable "example.dev" ["example", "dev"]
    (by decide) (by intro r hr; fin_cases hr <;> decide)

/-- C4: `classify` fails with `InvalidDomainError` exactly for the
syntactically invalid inputs — those empty after the single-trailing-dot
strip, or containing an empty label — and in particular on `""`, `"a..b"`
and `"."`. -/
theorem classify_invalid_inputs :
    (∀ (table : List Rule) (s : String),
       classify table s = Except.error ClassifyError.InvalidDomainError ↔
         (normalizeChars s = [] ∨
          ((splitLabels (normalizeChars s)).map
              (fun l => String.mk l)).contains "" = true)) ∧
    (∀ table : List Rule,
       classify table "" = Except.error ClassifyError.InvalidDomainError ∧
       classify table "a..b" = Except.error ClassifyError.InvalidDomainError ∧
       classify table "." = Except.error ClassifyError.InvalidDomainError) := by
  constructor
  · intro table s
    rw [classify_error_iff]
    exact parseDomain_eq_none_iff s
  · intro table
    exact ⟨(classify_error_iff _ _).mpr (by decide),
           (classify_error_iff _ _).mpr (by decide),
           (classify_error_iff _ _).mpr (by decide)⟩

/-- C5 counterexample: the claim quantifies over every domain string, but
for an input already ending in a dot, appending one more trailing dot
changes the result — `"com."` classifies, while uppercasing it and
appending a dot gives `"COM.."`, which fails with `InvalidDomainError`. -/
theorem classify_normalization_counterexample :
    classify ([] : List Rule) (toUpperStr "com." ++ ".") ≠
      classify ([] : List Rule) "com." := by
  decide

/-- C5 (amended): for every domain string not already ending in a dot, the
result of `classify` is unchanged under uppercasing the letters and
appending one trailing dot; and `classify "Example.COM."` equals
`classify "example.com"` over every table. -/
theorem classify_normalization (table : List Rule) (s : String)
    (h : s.data.getLast? ≠ some '.') :
    classify table (toUpperStr s ++ ".") = classify table s ∧
    classify table "Example.COM." = classify table "example.com" := by
  exact ⟨classify_congr table (normalizeChars_upper_dot s h),
         classify_congr table (by decide)⟩

/-- C5 witness: the amended statement at `"Example.COM"` over the empty
table. -/
theorem classify_normalization_witness :
    ("Example.COM".data.getLast? ≠ some '.') ∧
    (classify ([] : List Rule) (toUpperStr "Example.COM" ++ ".") =
       classify ([] : List Rule) "Example.COM" ∧
     classify ([] : List Rule) "Example.COM." =
       classify ([] : List Rule) "example.com") := by
  exact ⟨by decide, classify_normalization [] "Example.COM" (by decide)⟩

/-- C6 counterexample: on `"foo.zz"` against the empty table no rule
matches, yet the matched suffix is the top-level label `"zz"`, not the
empty string, refuting the claim that a no-match result carries an empty
`matchedSuffix`. -/
theorem classify_no_match_counterexample :
    matchesOf ([] : List Rule) ["zz", "foo"] = [] ∧
    classify ([] : List Rule) "foo.zz" =
      Except.ok ⟨"foo.zz", "zz", Origin.None⟩ ∧
    ("zz" : String) ≠ "" := by
  decide

/-- C6 (amended): for every valid domain on which no rule matches, the
result has origin `None` and matched suffix equal to the domain's
top-level label (the implicit default rule), not the empty string. -/
theorem classify_no_match_default (table : List Rule) (s : String)
    (labels : List String)
    (hp : parseDomain s = some labels)
    (hm : matchesOf table labels.reverse = []) :
    classify table s = Except.ok
      { domain := String.intercalate "." labels
      , matchedSuffix := topLabelOf labels
      , origin := Origin.None } := by
  rw [classify_parse_ok table s labels hp,
      classifyLabels_of_no_match table labels
        (bestMatch_eq_none table labels.reverse hm)]

/-- C6 witness: `bar.qq` against the empty table. -/
theorem classify_no_match_default_witness :
    (parseDomain "bar.qq" = some ["bar", "qq"] ∧
     matchesOf ([] : List Rule) ["bar", "qq"].reverse = []) ∧
    classify ([] : List Rule) "bar.qq" =
      Except.ok ⟨"bar.qq", "qq", Origin.None⟩ := by
  refine ⟨⟨by decide, by decide⟩, ?_⟩
  exact classify_no_match_default [] "bar.qq" ["bar", "qq"]
    (by decide) (by decide)

/-- C7: serialization of the origin — for a non-empty domain the response
carries exactly the fields domain, publicSuffix and isManagedBy, and
`isManagedBy` is always one of `"ICANN"`, `"PRIVATE_ENTITY"`, `"NONE"`
(the icann flag yielding `"ICANN"`); never any other value, in particular
never the empty string. -/
theorem response_shape_enum (ps : String → String × Bool) (d : String)
    (hd : d ≠ "") :
    publicSuffixHttpResponse ps d =
      { domain := d, publicSuffix := (ps d).1
      , isManagedBy := (publicSuffixHttpResponse ps d).isManagedBy } ∧
    ((publicSuffixHttpResponse ps d).isManagedBy = "ICANN" ∨
     (publicSuffixHttpResponse ps d).isManagedBy = "PRIVATE_ENTITY" ∨
     (publicSuffixHttpResponse ps d).isManagedBy = "NONE") ∧
    ((ps d).2 = true → (publicSuffixHttpResponse ps d).isManagedBy = "ICANN") ∧
    (publicSuffixHttpResponse ps d).isManagedBy ≠ "" := by
  cases hb : (ps d).2 <;> cases hdot : hasDotByte (ps d).1 <;>
    simp [publicSuffixHttpResponse, hb, hdot]

/-- C7 witness: the classification of `example.co.uk` against the
`uk` / `co.uk` table. -/
theorem response_shape_enum_witness :
    ("example.co.uk" ≠ "") ∧
    (publicSuffixHttpResponse (publicSuffixOf ukTable) "example.co.uk" =
       { domain := "example.co.uk", publicSuffix := "co.uk"
       , isManagedBy :=
           (publicSuffixHttpResponse (publicSuffixOf ukTable)
             "example.co.uk").isManagedBy } ∧
     ((publicSuffixHttpResponse (publicSuffixOf ukTable)
         "example.co.uk").isManagedBy = "ICANN" ∨
      (publicSuffixHttpResponse (publicSuffixOf ukTable)
         "example.co.uk").isManagedBy = "PRIVATE_ENTITY" ∨
      (publicSuffixHttpResponse (publicSuffixOf ukTable)
         "example.co.uk").isManagedBy = "NONE") ∧
     ((publicSuffixOf ukTable "example.co.uk").2 = true →
        (publicSuffixHttpResponse (publicSuffixOf ukTable)
          "example.co.uk").isManagedBy = "ICANN") ∧
     (publicSuffixHttpResponse (publicSuffixOf ukTable)
        "example.co.uk").isManagedBy ≠ "") := by
  refine ⟨by decide, ?_⟩
  have h := response_shape_enum (publicSuffixOf ukTable) "example.co.uk"
    (by decide)
  exact ⟨by rw [h.1]; decide, h.2.1, h.2.2.1, h.2.2.2⟩

/-- C8: empty-parameter rejection — for a missing or empty `domain` query
parameter the handler answers status 400 with the error body
`{errorCode, errorType, errorMessage}`, and the classification core is
never consulted (the result is the same for every core). -/
theorem handler_rejects_empty (ps : String → String × Bool)
    (q : Option String) (hq : q = none ∨ q = some "") :
    publicSuffixHttpHandler ps q =
      { status := 400
      , body := HandlerBody.errorBody 400 "Bad Request" badRequestMessage } ∧
    (∀ ps2 : String → String × Bool,
       publicSuffixHttpHandler ps2 q = publicSuffixHttpHandler ps q) := by
  have hd : q.getD "" = "" := by rcases hq with h | h <;> subst h <;> rfl
  constructor
  · simp [publicSuffixHttpHandler, hd]
  · intro ps2
    simp [publicSuffixHttpHandler, hd]

/-- C8 witness: the empty parameter with a concrete core. -/
theorem handler_rejects_empty_witness :
    ((some "" : Option String) = none ∨ (some "" : Option String) = some "") ∧
    (publicSuffixHttpHandler (fun s => (s, false)) (some "") =
       { status := 400
       , body := HandlerBody.errorBody 400 "Bad Request" badRequestMessage } ∧
     (∀ ps2 : String → String × Bool,
        publicSuffixHttpHandler ps2 (some "") =
          publicSuffixHttpHandler (fun s => (s, false)) (some ""))) := by
  exact ⟨Or.inr rfl,
    handler_rejects_empty (fun s => (s, false)) (some "") (Or.inr rfl)⟩

/-- C9: the dot-presence heuristic — `isManagedBy` is `"ICANN"` exactly
when the library flags the suffix ICANN-managed, `"PRIVATE_ENTITY"` exactly
when not ICANN-managed and the suffix contains a dot, `"NONE"` exactly when
not ICANN-managed and the suffix contains no dot; consequently a
private-section rule whose matched suffix is a single label is reported
`"NONE"`, not `"PRIVATE_ENTITY"`. -/
theorem isManagedBy_heuristic (ps : String → String × Bool)
    (table : List Rule) (d : String) (hd : d ≠ "") :
    ((publicSuffixHttpResponse ps d).isManagedBy = "ICANN" ↔
       (ps d).2 = true) ∧
    ((publicSuffixHttpResponse ps d).isManagedBy = "PRIVATE_ENTITY" ↔
       ((ps d).2 = false ∧ hasDotByte (ps d).1 = true)) ∧
    ((publicSuffixHttpResponse ps d).isManagedBy = "NONE" ↔
       ((ps d).2 = false ∧ hasDotByte (ps d).1 = false)) ∧
    (∀ res, classify table d = Except.ok res →
       res.origin = Origin.PrivateEntity →
       hasDotByte res.matchedSuffix = false →
       (publicSuffixHttpResponse (publicSuffixOf table) d).isManagedBy =
         "NONE") := by
  refine ⟨?_, ?_, ?_, ?_⟩
  · cases hb : (ps d).2 <;> cases hdot : hasDotByte (ps d).1 <;>
      simp [publicSuffixHttpResponse, hb, hdot]
  · cases hb : (ps d).2 <;> cases hdot : hasDotByte (ps d).1 <;>
      simp [publicSuffixHttpResponse, hb, hdot]
  · cases hb : (ps d).2 <;> cases hdot : hasDotByte (ps d).1 <;>
      simp [publicSuffixHttpResponse, hb, hdot]
  · intro res hres horig hdot
    have hps : publicSuffixOf table d = (res.matchedSuffix, false) := by
      unfold publicSuffixOf
      rw [hres]
      show (res.matchedSuffix, res.origin == Origin.ICANN) =
        (res.matchedSuffix, false)
      rw [horig, show (Origin.PrivateEntity == Origin.ICANN) = false
        from by decide]
    simp [publicSuffixHttpResponse, hps, hdot]

/-- A one-rule private-section table with a single-label suffix, for the
heuristic's misclassification case. -/
def devRule : Rule := ⟨["dev"], RuleKind.Plain, RuleOrigin.PrivateEntity⟩

/-- Table holding only the private single-label rule `dev`. -/
def devTable : List Rule := [devRule]

/-- C9 witness: `foo.dev` against the private single-label rule `dev` —
the classifier reports origin `PrivateEntity`, yet the endpoint says
`"NONE"`. -/
theorem isManagedBy_heuristic_witness :
    ("foo.dev" ≠ "") ∧
    (((publicSuffixHttpResponse (publicSuffixOf devTable)
         "foo.dev").isManagedBy = "ICANN" ↔
        (publicSuffixOf devTable "foo.dev").2 = true) ∧
     ((publicSuffixHttpResponse (publicSuffixOf devTable)
         "foo.dev").isManagedBy = "PRIVATE_ENTITY" ↔
        ((publicSuffixOf devTable "foo.dev").2 = false ∧
         hasDotByte (publicSuffixOf devTable "foo.dev").1 = true)) ∧
     ((publicSuffixHttpResponse (publicSuffixOf devTable)
         "foo.dev").isManagedBy = "NONE" ↔
        ((publicSuffixOf devTable "foo.dev").2 = false ∧
         hasDotByte (publicSuffixOf devTable "foo.dev").1 = false)) ∧
     (∀ res, classify devTable "foo.dev" = Except.ok res →
        res.origin = Origin.PrivateEntity →
        hasDotByte res.matchedSuffix = false →
        (publicSuffixHttpResponse (publicSuffixOf devTable)
           "foo.dev").isManagedBy = "NONE")) := by
  exact ⟨by decide,
    isManagedBy_heuristic (publicSuffixOf devTable) devTable "foo.dev"
      (by decide)⟩

/-- C10: raw echo of the input — the `domain` field of the success response
is the caller-supplied string itself, with no normalization, and the
handler wraps exactly that response at status 200 for a non-empty
parameter. -/
theorem response_echoes_domain (ps : String → String × Bool)
    (q : Option String) (d : String) (hq : q = some d) (hd : d ≠ "") :
    (publicSuffixHttpResponse ps d).domain = d ∧
    publicSuffixHttpHandler ps q =
      { status := 200
      , body := HandlerBody.successBody (publicSuffixHttpResponse ps d) } := by
  subst hq
  constructor
  · rfl
  · simp [publicSuffixHttpHandler, hd]

/-- C10 witness: the mixed-case input `Example.CO.UK` is echoed verbatim
even though matching normalizes it. -/
theorem response_echoes_domain_witness :
    ((some "Example.CO.UK" : Option String) = some "Example.CO.UK" ∧
     "Example.CO.UK" ≠ "") ∧
    ((publicSuffixHttpResponse (publicSuffixOf ukTable)
        "Example.CO.UK").domain = "Example.CO.UK" ∧
     publicSuffixHttpHandler (publicSuffixOf ukTable)
         (some "Example.CO.UK") =
       { status := 200
       , body := HandlerBody.successBody
           (publicSuffixHttpResponse (publicSuffixOf ukTable)
             "Example.CO.UK") }) := by
  exact ⟨⟨rfl, by decide⟩,
    response_echoes_domain (publicSuffixOf ukTable) (some "Example.CO.UK")
      "Example.CO.UK" rfl (by decide)⟩
